import Mathlib

/-!
Verification of the filter-aggregate-rank pipeline of the `unknownpath`
Streamlit dashboard (`src/app.py` and `src/pages/*.py`) against its
natural-language specification.

The pandas operations used by the source are shallowly embedded:

* a dataframe is a `List` of rows (a structure per CSV schema);
* a missing value (`NaN`) is `Option.none`;
* the `cop` column, whose raw CSV cells may be numbers, non-numeric
  strings, or missing, is a `Cell`; `pd.to_numeric(errors := coerce)`
  is `Cell.toNumeric` (unparseable and missing cells both become `NaN`,
  and the dashboard only ever compares `cop` against integer editions,
  so numeric cells are carried as `Int`);
* `Series.isin` is list membership, `NaN` never matching a numeric
  selection;
* boolean-mask filtering is `List.filter`;
* `groupby` (with its defaults `sort := True`, `dropna := True`) lists
  the distinct non-missing keys in ascending order; `nunique` counts
  distinct non-missing values;
* the multi-key `sort_values` is a stable sort
  (`List.insertionSort`), as pandas implements it with the stable
  `np.lexsort`; the single-key descending sort of the "All categories"
  table runs through numpy's default unstable quicksort, gives no
  tie-order guarantee, and is not embedded;
* `GroupBy.head(n)` keeps, in frame order, the first `n` rows of each
  group when `0 ≤ n` and all but the last `-n` rows of each group when
  `n < 0`;
* `value_counts` is observed through the count of each value;
* `Series.str.split ∘ explode ∘ str.strip` is split-flatten-trim.
-/

namespace UnknownPath

/-- One raw CSV cell of the `cop` column: missing, a cell that parses as
the numeric edition `n`, or a non-numeric cell that fails parsing. -/
inductive Cell where
  | missing : Cell
  | num : Int → Cell
  | str : String → Cell
deriving DecidableEq

/-- `pd.to_numeric(errors := coerce)` applied to one cell: numeric cells
keep their value, everything else becomes missing (`NaN`). -/
def Cell.toNumeric : Cell → Option Int
  | Cell.num n => some n
  | _ => none

/-- One row of `combined_categorization.csv` restricted to the columns the
pipeline reads: `id`, `lang`, `cop`, `categories`, `author.userName`
(the dot is not a legal Lean field name, hence `authorUserName`). -/
structure Row where
  id : Option Int
  lang : Option String
  cop : Cell
  categories : Option String
  authorUserName : Option String
deriving DecidableEq

/-- `load_data` of `src/app.py` (also duplicated in `src/pages/Actors.py`):
after `pd.read_csv`, fill missing `categories`, `author.userName` and
`lang` with their sentinels, and coerce `cop` to numeric, unparseable
values becoming missing. -/
def load_data (df : List Row) : List Row :=
  df.map fun r =>
    { r with
      categories := some (r.categories.getD "Uncategorized")
      authorUserName := some (r.authorUserName.getD "Unknown")
      lang := some (r.lang.getD "unknown")
      cop := match r.cop with
        | Cell.num n => Cell.num n
        | _ => Cell.missing }

/-- The dataset load performed by `src/pages/Categories.py` (and likewise
`src/pages/Most_active_users.py`): a bare `pd.read_csv` with no `fillna`
and no numeric coercion, so the loaded frame is the raw frame. -/
def categories_page_load (df : List Row) : List Row := df

/-- The language conjunct of the sidebar mask of `apply_filters`
(`src/app.py`): `if selected_langs: mask &= df[lang].isin(selected_langs)`.
An empty selection contributes no constraint; a missing `lang` is never
`isin` a list of strings. -/
def langOk (selectedLangs : List String) (r : Row) : Bool :=
  selectedLangs.isEmpty ||
    (match r.lang with
     | some l => selectedLangs.contains l
     | none => false)

/-- The COP conjunct of the sidebar mask of `apply_filters` (`src/app.py`):
`if selected_cops: mask &= df[cop].isin(pd.to_numeric(selected_cops))`.
The selected editions are numbers (they come from the non-missing unique
values of the column), so their own coercion is the identity; a stored
value that is missing or failed coercion is never `isin` them. -/
def copOk (selectedCops : List Int) (r : Row) : Bool :=
  selectedCops.isEmpty ||
    (match r.cop.toNumeric with
     | some n => selectedCops.contains n
     | none => false)

/-- `apply_filters` of `src/app.py` (the same mask is rebuilt verbatim in
`src/pages/Categories.py`, `src/pages/Actors.py`,
`src/pages/Most_active_users.py` and `src/pages/Other_stats.py`): keep
the rows satisfying both dimension conjuncts.  The source also returns
the two selections unchanged; here they are simply the parameters. -/
def apply_filters (df : List Row) (selectedLangs : List String)
    (selectedCops : List Int) : List Row :=
  df.filter fun r => langOk selectedLangs r && copOk selectedCops r

/-- Filtering with the language dimension omitted from the selection
entirely: the mask is built from the COP conjunct alone.  (Spec-side
comparison point for the empty-selection policy of §4.2.) -/
def filter_cop_only (df : List Row) (selectedCops : List Int) : List Row :=
  df.filter fun r => copOk selectedCops r

/-- Filtering with the COP dimension omitted from the selection entirely:
the mask is built from the language conjunct alone. -/
def filter_lang_only (df : List Row) (selectedLangs : List String) : List Row :=
  df.filter fun r => langOk selectedLangs r

/-- C1: filtering with an empty selection for one dimension applies no
constraint for that dimension — it returns exactly the rows obtained by
omitting that dimension from the selection entirely, for every dataframe
and every selection for the other dimension. -/
theorem c1_empty_selection_is_no_constraint :
    ∀ (df : List Row) (selectedLangs : List String) (selectedCops : List Int),
      apply_filters df [] selectedCops = filter_cop_only df selectedCops ∧
      apply_filters df selectedLangs [] = filter_lang_only df selectedLangs := by
  intro df selectedLangs selectedCops
  constructor
  · unfold apply_filters filter_cop_only
    apply List.filter_congr
    intro r _
    simp [langOk]
  · unfold apply_filters filter_lang_only
    apply List.filter_congr
    intro r _
    simp [copOk]

/-- C9: filtering is idempotent — applying the same selection twice
returns the rows of applying it once. -/
theorem c9_filter_idempotent :
    ∀ (df : List Row) (selectedLangs : List String) (selectedCops : List Int),
      apply_filters (apply_filters df selectedLangs selectedCops)
          selectedLangs selectedCops =
        apply_filters df selectedLangs selectedCops := by
  intro df selectedLangs selectedCops
  unfold apply_filters
  rw [List.filter_filter]
  apply List.filter_congr
  intro r _
  cases langOk selectedLangs r && copOk selectedCops r <;> rfl

/-- C5: a row whose stored edition failed numeric coercion matches no
numeric selection: it is excluded whenever the edition dimension is
constrained, and it is included (subject only to the language conjunct)
when the edition dimension is unconstrained.  The embedded filter is a
total function, so no selection makes it raise. -/
theorem c5_unparseable_edition_never_matches
    (df : List Row) (r : Row)
    (hmem : r ∈ df) (hcop : r.cop.toNumeric = none) :
    (∀ (selectedLangs : List String) (selectedCops : List Int),
        selectedCops ≠ [] →
        r ∉ apply_filters df selectedLangs selectedCops) ∧
    (∀ selectedLangs : List String,
        langOk selectedLangs r = true →
        r ∈ apply_filters df selectedLangs []) := by
  constructor
  · intro selectedLangs selectedCops hne hr
    have hok := (List.mem_filter.mp hr).2
    have hcopOk : copOk selectedCops r = false := by
      unfold copOk
      rw [hcop]
      simpa [List.isEmpty_iff] using hne
    rw [Bool.and_eq_true, hcopOk] at hok
    exact Bool.false_ne_true hok.2
  · intro selectedLangs hlang
    apply List.mem_filter.mpr
    refine ⟨hmem, ?_⟩
    have hcopOk : copOk [] r = true := by unfold copOk; rfl
    rw [Bool.and_eq_true, hcopOk, hlang]
    exact ⟨rfl, rfl⟩

/-- A row of the raw CSV whose `cop` cell is the non-numeric text `n/a`:
coercion fails at load time. -/
def rowBadCop : Row :=
  { id := some 1, lang := some "en", cop := Cell.str "n/a",
    categories := some "Action", authorUserName := some "u1" }

/-- A row of the raw CSV whose `lang` is missing. -/
def rowNoLang : Row :=
  { id := some 2, lang := none, cop := Cell.num 26,
    categories := some "Action", authorUserName := some "u2" }

/-- Witness for C5 at a concrete row: `rowBadCop` is dropped by the
constrained edition filter `[26]` and kept by the unconstrained one. -/
theorem c5_unparseable_edition_never_matches_witness :
    (rowBadCop ∉ apply_filters [rowBadCop] [] [26]) ∧
    (rowBadCop ∈ apply_filters [rowBadCop] [] []) := by
  have h := c5_unparseable_edition_never_matches [rowBadCop] rowBadCop
    (by decide) (by decide)
  exact ⟨h.1 [] [26] (by decide), h.2 [] (by decide)⟩

/-- C4 counterexample: missing dimension values are not always replaced by
a sentinel at load time.  In `load_data` (`src/app.py`) the unparseable
`cop` cell of `rowBadCop` becomes missing, not a sentinel; in the
`Categories.py` load `rowNoLang` keeps its missing `lang`, and the filter
then silently drops it as soon as the language dimension is constrained
(here with the selection holding every available language, `["en"]`). -/
theorem c4_counterexample :
    (load_data [rowBadCop]).map Row.cop = [Cell.missing] ∧
    (categories_page_load [rowNoLang]).map Row.lang = [none] ∧
    apply_filters (categories_page_load [rowNoLang, rowBadCop]) ["en"] [] =
      [rowBadCop] := by
  refine ⟨rfl, rfl, ?_⟩
  decide

/-- The image of `rowBadCop` under `load_data`. -/
def rowBadCopLoaded : Row :=
  { id := some 1, lang := some "en", cop := Cell.missing,
    categories := some "Action", authorUserName := some "u1" }

/-! ### Stable sorting

The multi-key `sort_values` and the key ordering of
`groupby(sort := True)` are embedded as `List.insertionSort`, a stable
sort: pandas implements multi-key sorts with the stable `np.lexsort`. -/

/-- Inserting `x` with `orderedInsert r` into a list that is pairwise
ordered by `R` keeps it pairwise ordered by `R`, provided `R x y` holds
for every element `x` may precede (`r x y`), `R y x` for every element it
must follow, and elements `R`-after an element `x` may precede are again
elements `x` may precede. -/
theorem pairwise_orderedInsert (r : α → α → Prop) [DecidableRel r]
    (R : α → α → Prop) (x : α) :
    ∀ s : List α, s.Pairwise R →
      (∀ y ∈ s, ¬ r x y → R y x) →
      (∀ y ∈ s, r x y → R x y) →
      (∀ z w, R z w → r x z → r x w) →
      (List.orderedInsert r x s).Pairwise R
  | [], _, _, _, _ => by simp [List.orderedInsert]
  | b :: l, hp, hfollow, hprecede, hdown => by
    rcases List.pairwise_cons.mp hp with ⟨hbl, hl⟩
    rw [List.orderedInsert]
    by_cases hb : r x b
    · rw [if_pos hb]
      refine List.pairwise_cons.mpr ⟨?_, hp⟩
      intro y hy
      rcases List.mem_cons.mp hy with rfl | hyl
      · exact hprecede y (List.mem_cons_self ..) hb
      · exact hprecede y (List.mem_cons_of_mem _ hyl) (hdown b y (hbl y hyl) hb)
    · rw [if_neg hb]
      refine List.pairwise_cons.mpr ⟨?_, ?_⟩
      · intro y hy
        rcases (List.mem_orderedInsert r).mp hy with rfl | hyl
        · exact hfollow b (List.mem_cons_self ..) hb
        · exact hbl y hyl
      · exact pairwise_orderedInsert r R x l hl
          (fun y hy => hfollow y (List.mem_cons_of_mem _ hy))
          (fun y hy => hprecede y (List.mem_cons_of_mem _ hy)) hdown

/-- The stable sort of a list is pairwise ordered by `R` whenever `R`
refines the sort relation `r` on ties using the original order: `R y x`
must hold when `x` cannot precede `y`, elements `R`-after an element `x`
may precede stay ones `x` may precede, and for every pair in original
order, `R` holds as soon as the sort relation allows the earlier element
to stay first. -/
theorem pairwise_insertionSort (r : α → α → Prop) [DecidableRel r]
    (R : α → α → Prop)
    (hfollow : ∀ x y, ¬ r x y → R y x)
    (hdown : ∀ x z w, R z w → r x z → r x w) :
    ∀ l : List α, l.Pairwise (fun x y => r x y → R x y) →
      (List.insertionSort r l).Pairwise R
  | [], _ => List.Pairwise.nil
  | x :: l, hp => by
    rcases List.pairwise_cons.mp hp with ⟨hx, hl⟩
    rw [List.insertionSort]
    refine pairwise_orderedInsert r R x _
      (pairwise_insertionSort r R hfollow hdown l hl) ?_ ?_ (hdown x)
    · intro y _ hny
      exact hfollow x y hny
    · intro y hy hr
      exact hx y ((List.perm_insertionSort r l).subset hy) hr

/-! ### Code-point string order

Python compares strings by code points; the embedded order is the
lexicographic order on the character code points, written as an
executable boolean comparison so that concrete frames evaluate. -/

/-- Lexicographic code-point comparison of character lists. -/
def chLt : List Char → List Char → Bool
  | [], [] => false
  | [], _ :: _ => true
  | _ :: _, [] => false
  | a :: as, b :: bs =>
    decide (a.toNat < b.toNat) || (decide (a.toNat = b.toNat) && chLt as bs)

/-- Strict code-point lexicographic order on strings. -/
def strLt (a b : String) : Prop := chLt a.data b.data = true

instance : DecidableRel strLt := fun a b =>
  inferInstanceAs (Decidable (chLt a.data b.data = true))

theorem chLt_trans : ∀ {a b c : List Char},
    chLt a b = true → chLt b c = true → chLt a c = true
  | [], [], _, hab, _ => by simp [chLt] at hab
  | [], _ :: _, [], _, hbc => by simp [chLt] at hbc
  | [], _ :: _, _ :: _, _, _ => by simp [chLt]
  | _ :: _, [], _, hab, _ => by simp [chLt] at hab
  | _ :: _, _ :: _, [], _, hbc => by simp [chLt] at hbc
  | a :: as, b :: bs, c :: cs, hab, hbc => by
    simp only [chLt, Bool.or_eq_true, Bool.and_eq_true,
      decide_eq_true_eq] at hab hbc ⊢
    rcases hab with h1 | ⟨he1, hr1⟩
    · rcases hbc with h2 | ⟨he2, _⟩
      · exact Or.inl (Nat.lt_trans h1 h2)
      · exact Or.inl (he2 ▸ h1)
    · rcases hbc with h2 | ⟨he2, hr2⟩
      · exact Or.inl (he1 ▸ h2)
      · exact Or.inr ⟨he1.trans he2, chLt_trans hr1 hr2⟩

theorem chLt_asymm : ∀ {a b : List Char},
    chLt a b = true → ¬ chLt b a = true
  | [], [], h => by simp [chLt] at h
  | [], _ :: _, _ => by simp [chLt]
  | _ :: _, [], h => by simp [chLt] at h
  | a :: as, b :: bs, h => by
    simp only [chLt, Bool.or_eq_true, Bool.and_eq_true,
      decide_eq_true_eq] at h ⊢
    intro h2
    rcases h with h1 | ⟨he1, hr1⟩
    · rcases h2 with h2 | ⟨he2, _⟩
      · omega
      · omega
    · rcases h2 with h2 | ⟨he2, hr2⟩
      · omega
      · exact chLt_asymm hr1 hr2

theorem chLt_connex : ∀ {a b : List Char},
    ¬ chLt a b = true → ¬ chLt b a = true → a = b
  | [], [], _, _ => rfl
  | [], _ :: _, hab, _ => absurd (by simp [chLt]) hab
  | _ :: _, [], _, hba => absurd (by simp [chLt]) hba
  | a :: as, b :: bs, hab, hba => by
    simp only [chLt, Bool.or_eq_true, Bool.and_eq_true,
      decide_eq_true_eq] at hab hba
    push_neg at hab hba
    have he : a.toNat = b.toNat := by omega
    have hc : a = b := by
      rw [← Char.ofNat_toNat a, ← Char.ofNat_toNat b, he]
    rw [hc, chLt_connex (hab.2 he) (hba.2 he.symm)]

theorem strLt_trans {a b c : String} (h1 : strLt a b) (h2 : strLt b c) :
    strLt a c :=
  chLt_trans h1 h2

theorem strLt_asymm {a b : String} (h : strLt a b) : ¬ strLt b a :=
  chLt_asymm h

theorem strLt_trichotomy (a b : String) : strLt a b ∨ a = b ∨ strLt b a := by
  by_cases h1 : strLt a b
  · exact Or.inl h1
  by_cases h2 : strLt b a
  · exact Or.inr (Or.inr h2)
  · exact Or.inr (Or.inl (String.ext (chLt_connex h1 h2)))

/-! ### The aggregate-and-rank pipeline of `src/app.py` -/

/-- The two-part group key of
`df.groupby([categories, author.userName])` for one row; `none` when
either key column is missing (pandas `groupby` drops such rows). -/
def rowKey (r : Row) : Option (String × String) :=
  match r.categories, r.authorUserName with
  | some c, some a => some (c, a)
  | _, _ => none

/-- The distinct group keys of the two-key groupby. -/
def groupKeys (df : List Row) : List (String × String) :=
  (df.filterMap rowKey).dedup

/-- The lexicographic key order in which `groupby(sort := True)` lists the
(category, author) keys. -/
def pairLe (a b : String × String) : Prop :=
  strLt a.1 b.1 ∨ (a.1 = b.1 ∧ ¬ strLt b.2 a.2)

instance : DecidableRel pairLe := fun a b =>
  inferInstanceAs (Decidable (strLt a.1 b.1 ∨ (a.1 = b.1 ∧ ¬ strLt b.2 a.2)))

/-- `Series.nunique` of an `id` column: the number of distinct
non-missing values. -/
def colNunique (l : List (Option Int)) : Nat :=
  (l.filterMap (fun v => v)).dedup.length

/-- The rows of the two-key group `k`. -/
def keyRows (df : List Row) (k : String × String) : List Row :=
  df.filter fun r => decide (rowKey r = some k)

/-- `df.groupby([categories, author.userName], as_index := False)
.agg(tweet_count := (id, nunique))` (`src/app.py`): one output row per
distinct key, keys ascending, the metric counting the distinct
non-missing ids of the group. -/
def grouped (df : List Row) : List ((String × String) × Nat) :=
  (List.insertionSort pairLe (groupKeys df)).map
    fun k => (k, colNunique ((keyRows df k).map Row.id))

/-- The order of `sort_values([categories, tweet_count],
ascending := [True, False])`: category ascending, then tweet count
descending; ties are resolved by the stability of the sort. -/
def catCntLe (a b : (String × String) × Nat) : Prop :=
  strLt a.1.1 b.1.1 ∨ (a.1.1 = b.1.1 ∧ b.2 ≤ a.2)

instance : DecidableRel catCntLe := fun a b =>
  inferInstanceAs (Decidable (strLt a.1.1 b.1.1 ∨ (a.1.1 = b.1.1 ∧ b.2 ≤ a.2)))

/-- `grouped_sorted` of `src/app.py`. -/
def grouped_sorted (df : List Row) : List ((String × String) × Nat) :=
  List.insertionSort catCntLe (grouped df)

/-- `GroupBy.head(n)` over the suffix `l` of a frame whose already
processed prefix is `seen`, groups being identified by `key`: in frame
order, a row is kept when fewer than `n` rows of its group precede it
(`0 ≤ n`), or when at least `-n` rows of its group follow it (`n < 0`,
pandas keeping all rows but the last `-n` of each group). -/
def keepRow (n : Int) (preceding following : Nat) : Bool :=
  if 0 ≤ n then decide (preceding < n.toNat)
  else decide ((-n).toNat ≤ following)

def groupHeadAux (n : Int) (key : α → String) : List α → List α → List α
  | _, [] => []
  | seen, x :: rest =>
    if keepRow n (seen.filter fun y => decide (key y = key x)).length
        (rest.filter fun y => decide (key y = key x)).length
    then x :: groupHeadAux n key (seen ++ [x]) rest
    else groupHeadAux n key (seen ++ [x]) rest

/-- `GroupBy.head(n)` over a whole frame. -/
def groupHead (n : Int) (key : α → String) (l : List α) : List α :=
  groupHeadAux n key [] l

/-- `compute_top_authors_by_category` (`src/app.py`): empty in, empty
out; otherwise group by (category, author) counting distinct ids,
stable-sort by category ascending and count descending, and keep the
first `top_n` rows of each category group. -/
def compute_top_authors_by_category (df : List Row) (top_n : Int) :
    List ((String × String) × Nat) :=
  if df.isEmpty then []
  else groupHead top_n (fun e => e.1.1) (grouped_sorted df)

/-- `a ≤ b` on strings, the key order of single-key `groupby`. -/
def strLe (a b : String) : Prop := ¬ strLt b a

instance : DecidableRel strLe := fun a b =>
  inferInstanceAs (Decidable (¬ strLt b a))

/-- `render_summary`'s tweet KPI (`src/app.py`):
`int(df[id].nunique()) if not df.empty else 0`. -/
def total_tweets (df : List Row) : Nat :=
  if df.isEmpty then 0 else colNunique (df.map Row.id)

/-! ### Ranking order facts -/

/-- Category ascending, then metric descending with metric ties broken by
author ascending — the documented contract for the per-category
ranking. -/
def catRankOrder (a b : (String × String) × Nat) : Prop :=
  strLt a.1.1 b.1.1 ∨
    (a.1.1 = b.1.1 ∧ (b.2 < a.2 ∨ (a.2 = b.2 ∧ strLt a.1.2 b.1.2)))

/-- Strict lexicographic order on (category, author) keys. -/
def pairLt (a b : String × String) : Prop :=
  strLt a.1 b.1 ∨ (a.1 = b.1 ∧ strLt a.2 b.2)

/-- Sorting pairwise-distinct keys with `pairLe` yields a strictly
lexicographically increasing list. -/
theorem pairwise_sorted_keys (l : List (String × String)) (hn : l.Nodup) :
    (List.insertionSort pairLe l).Pairwise pairLt := by
  refine pairwise_insertionSort pairLe pairLt ?_ ?_ l (hn.imp ?_)
  · intro x y h
    unfold pairLe at h
    push_neg at h
    rcases strLt_trichotomy y.1 x.1 with hlt | heq | hgt
    · exact Or.inl hlt
    · exact Or.inr ⟨heq, h.2 heq.symm⟩
    · exact absurd hgt h.1
  · intro x z w hzw hxz
    unfold pairLt at hzw
    unfold pairLe at hxz ⊢
    rcases hxz with h | ⟨he, hn2⟩
    · rcases hzw with h2 | ⟨he2, _⟩
      · exact Or.inl (strLt_trans h h2)
      · exact Or.inl (he2 ▸ h)
    · rcases hzw with h2 | ⟨he2, hlt2⟩
      · exact Or.inl (he ▸ h2)
      · refine Or.inr ⟨he.trans he2, fun hw => hn2 (strLt_trans hlt2 hw)⟩
  · intro a b hne hle
    rcases hle with h | ⟨he, h2⟩
    · exact Or.inl h
    · rcases strLt_trichotomy a.2 b.2 with hlt | heq | hgt
      · exact Or.inr ⟨he, hlt⟩
      · exact absurd (Prod.ext he heq) hne
      · exact absurd hgt h2

/-- The two-key aggregation lists its keys in strictly increasing
lexicographic order. -/
theorem grouped_key_pairwise (df : List Row) :
    (grouped df).Pairwise fun a b => pairLt a.1 b.1 := by
  unfold grouped
  exact List.pairwise_map.mpr
    ((pairwise_sorted_keys (groupKeys df) (List.nodup_dedup _)).imp (fun h => h))

/-- `grouped_sorted` is ordered by category ascending, then count
descending, with count ties broken by author ascending. -/
theorem grouped_sorted_pairwise (df : List Row) :
    (grouped_sorted df).Pairwise catRankOrder := by
  unfold grouped_sorted
  refine pairwise_insertionSort catCntLe catRankOrder ?_ ?_ _
    ((grouped_key_pairwise df).imp ?_)
  · intro x y h
    unfold catCntLe at h
    push_neg at h
    rcases strLt_trichotomy y.1.1 x.1.1 with hlt | heq | hgt
    · exact Or.inl hlt
    · exact Or.inr ⟨heq, Or.inl (h.2 heq.symm)⟩
    · exact absurd hgt h.1
  · intro x z w hzw hxz
    unfold catRankOrder at hzw
    unfold catCntLe at hxz ⊢
    rcases hxz with h | ⟨he, hc⟩
    · rcases hzw with h2 | ⟨he2, _⟩
      · exact Or.inl (strLt_trans h h2)
      · exact Or.inl (he2 ▸ h)
    · rcases hzw with h2 | ⟨he2, hc2⟩
      · exact Or.inl (he ▸ h2)
      · refine Or.inr ⟨he.trans he2, ?_⟩
        rcases hc2 with hlt | ⟨heq, _⟩
        · exact le_trans (le_of_lt hlt) hc
        · exact heq ▸ hc
  · intro a b hk hle
    unfold catRankOrder
    rcases hk with h | ⟨he, ha⟩
    · exact Or.inl h
    · rcases hle with h2 | ⟨_, hc⟩
      · exact Or.inl h2
      · rcases lt_or_eq_of_le hc with hlt | heq
        · exact Or.inr ⟨he, Or.inl hlt⟩
        · exact Or.inr ⟨he, Or.inr ⟨heq.symm, ha⟩⟩

/-- `groupHeadAux` returns a subsequence of its input suffix. -/
theorem groupHeadAux_sublist (n : Int) (key : α → String) :
    ∀ (l seen : List α), (groupHeadAux n key seen l).Sublist l
  | [], _ => List.Sublist.refl []
  | x :: rest, seen => by
    rw [groupHeadAux]
    split
    · exact List.Sublist.cons₂ x (groupHeadAux_sublist n key rest (seen ++ [x]))
    · exact List.Sublist.cons x (groupHeadAux_sublist n key rest (seen ++ [x]))

theorem groupHead_sublist (n : Int) (key : α → String) (l : List α) :
    (groupHead n key l).Sublist l :=
  groupHeadAux_sublist n key l []

/-- `GroupBy.head(0)` keeps nothing. -/
theorem groupHeadAux_zero (key : α → String) :
    ∀ (l seen : List α), groupHeadAux 0 key seen l = []
  | [], _ => rfl
  | x :: rest, seen => by
    rw [groupHeadAux, if_neg (by simp [keepRow])]
    exact groupHeadAux_zero key rest (seen ++ [x])

/-- `GroupBy.head(n)` with `0 ≤ n` keeps every row when at most `n` rows
are left to process in total. -/
theorem groupHeadAux_all (n : Int) (hn : 0 ≤ n) (key : α → String) :
    ∀ (l seen : List α), seen.length + l.length ≤ n.toNat →
      groupHeadAux n key seen l = l
  | [], _, _ => rfl
  | x :: rest, seen, hlen => by
    have hflt : (seen.filter fun y => decide (key y = key x)).length < n.toNat := by
      have h1 := List.length_filter_le (fun y => decide (key y = key x)) seen
      simp only [List.length_cons] at hlen
      omega
    rw [groupHeadAux,
      if_pos (by unfold keepRow; rw [if_pos hn]; exact decide_eq_true hflt)]
    refine congrArg (x :: ·) (groupHeadAux_all n hn key rest (seen ++ [x]) ?_)
    simp only [List.length_append, List.length_cons, List.length_nil] at *
    omega

/-- Within each group, `GroupBy.head(n)` with `0 ≤ n` keeps exactly the
first `n` rows (in frame order) not already accounted for by the
processed prefix `seen`. -/
theorem groupHeadAux_filter (n : Int) (hn : 0 ≤ n) (key : α → String)
    (c : String) :
    ∀ (l seen : List α),
      (groupHeadAux n key seen l).filter (fun y => decide (key y = c)) =
        (l.filter (fun y => decide (key y = c))).take
          (n.toNat - (seen.filter (fun y => decide (key y = c))).length)
  | [], seen => by simp [groupHeadAux]
  | x :: rest, seen => by
    rw [groupHeadAux]
    by_cases hxc : key x = c
    · have hpred : (fun y => decide (key y = key x)) =
          (fun y => decide (key y = c)) := by
        funext y
        rw [hxc]
      rw [hpred]
      have hkeep : keepRow n (seen.filter fun y => decide (key y = c)).length
          (rest.filter fun y => decide (key y = c)).length =
            decide ((seen.filter fun y => decide (key y = c)).length < n.toNat) := by
        unfold keepRow
        rw [if_pos hn]
      rw [hkeep]
      have hseenx : ((seen ++ [x]).filter fun y => decide (key y = c)).length =
          (seen.filter fun y => decide (key y = c)).length + 1 := by
        rw [List.filter_append, List.length_append]
        simp [hxc]
      by_cases hlt : (seen.filter fun y => decide (key y = c)).length < n.toNat
      · rw [if_pos (decide_eq_true hlt), List.filter_cons,
          if_pos (decide_eq_true hxc),
          groupHeadAux_filter n hn key c rest (seen ++ [x]), hseenx,
          List.filter_cons, if_pos (decide_eq_true hxc)]
        obtain ⟨m, hm⟩ : ∃ m,
            n.toNat - (seen.filter fun y => decide (key y = c)).length = m + 1 :=
          ⟨n.toNat - (seen.filter fun y => decide (key y = c)).length - 1, by omega⟩
        rw [hm, List.take_succ_cons]
        have : n.toNat - ((seen.filter fun y => decide (key y = c)).length + 1) = m := by
          omega
        rw [this]
      · rw [if_neg (by simpa using hlt),
          groupHeadAux_filter n hn key c rest (seen ++ [x]), hseenx,
          List.filter_cons, if_pos (decide_eq_true hxc)]
        have h0 : n.toNat - ((seen.filter fun y => decide (key y = c)).length + 1) = 0 := by
          omega
        have h0' : n.toNat - (seen.filter fun y => decide (key y = c)).length = 0 := by
          omega
        rw [h0, h0', List.take_zero, List.take_zero]
    · have hseenx : ((seen ++ [x]).filter fun y => decide (key y = c)).length =
          (seen.filter fun y => decide (key y = c)).length := by
        rw [List.filter_append, List.length_append]
        simp [hxc]
      have htail : (groupHeadAux n key (seen ++ [x]) rest).filter
            (fun y => decide (key y = c)) =
          (rest.filter (fun y => decide (key y = c))).take
            (n.toNat - (seen.filter (fun y => decide (key y = c))).length) := by
        rw [groupHeadAux_filter n hn key c rest (seen ++ [x]), hseenx]
      have hrhs : (x :: rest).filter (fun y => decide (key y = c)) =
          rest.filter (fun y => decide (key y = c)) := by
        rw [List.filter_cons, if_neg (by simpa using hxc)]
      rw [hrhs]
      split
      · have hlhs : (x :: groupHeadAux n key (seen ++ [x]) rest).filter
              (fun y => decide (key y = c)) =
            (groupHeadAux n key (seen ++ [x]) rest).filter
              (fun y => decide (key y = c)) := by
          rw [List.filter_cons, if_neg (by simpa using hxc)]
        rw [hlhs]
        exact htail
      · exact htail

/-- Frame-order per-group truncation for a whole frame. -/
theorem groupHead_filter (n : Int) (hn : 0 ≤ n) (key : α → String)
    (c : String) (l : List α) :
    (groupHead n key l).filter (fun y => decide (key y = c)) =
      (l.filter (fun y => decide (key y = c))).take n.toNat := by
  rw [groupHead, groupHeadAux_filter n hn key c l []]
  rfl

/-! ### Concrete example frames -/

/-- A fully labeled row with identifier `i`, category `c` and author
`a`. -/
def mkRow (c a : String) (i : Int) : Row :=
  { id := some i, lang := some "en", cop := Cell.num 26,
    categories := some c, authorUserName := some a }

/-- Two-key counts {(A,x): 10, (A,y): 3, (B,x): 7}. -/
def exPerKey : List Row :=
  (List.range 10).map (fun i => mkRow "A" "x" (Int.ofNat i)) ++
    (List.range 3).map (fun i => mkRow "A" "y" (Int.ofNat (100 + i))) ++
    (List.range 7).map (fun i => mkRow "B" "x" (Int.ofNat (200 + i)))

/-- A single category with author `u` on one tweet and author `v` on
two. -/
def exSmall : List Row :=
  [mkRow "A" "u" 1, mkRow "A" "v" 2, mkRow "A" "v" 3]

/-- C3 counterexample: `compute_top_authors_by_category` does not reject
`top_n ≤ 0` — no `InvalidParameterError` (or any error) exists in the
source, the function is total and simply returns `head`'s result:
`head(0)` is empty and `head(-1)` is every group row but the last. -/
theorem c3_counterexample :
    compute_top_authors_by_category exSmall 0 = [] ∧
    compute_top_authors_by_category exSmall (-1) = [(("A", "v"), 2)] := by
  constructor
  · decide
  · decide

/-- C3 as amended: `top_n ≤ 0` is not rejected — there is no parameter
validation and no error type in the source; `head(0)` yields the empty
result and negative `top_n` yields pandas `head` semantics (all rows of a
group but the last `-top_n`).  The second half of the claim holds: a
result with at most `top_n` group rows is returned whole, with no
padding. -/
theorem c3_amended_no_validation :
    (∀ df : List Row, compute_top_authors_by_category df 0 = []) ∧
    (∀ (df : List Row) (n : Int), 0 ≤ n →
        (grouped_sorted df).length ≤ n.toNat →
        compute_top_authors_by_category df n = grouped_sorted df) := by
  constructor
  · intro df
    unfold compute_top_authors_by_category
    split
    · rfl
    · exact groupHeadAux_zero _ _ []
  · intro df n hn hlen
    unfold compute_top_authors_by_category
    split
    · rename_i hdf
      rw [List.isEmpty_iff.mp hdf]
      rfl
    · exact groupHeadAux_all n hn _ _ [] (by simpa using hlen)

/-- Witness for the amended C3: `exSmall` has two group rows, so
`top_n = 5` returns them all. -/
theorem c3_amended_witness :
    0 ≤ (5 : Int) ∧ (grouped_sorted exSmall).length ≤ (5 : Int).toNat ∧
      compute_top_authors_by_category exSmall 5 = grouped_sorted exSmall :=
  ⟨by decide, by decide,
    c3_amended_no_validation.2 exSmall 5 (by decide) (by decide)⟩

/-- C6: the per-category aggregation truncates independently within each
category: for every category the output rows of that category are exactly
the first `top_n` sorted rows of that category (hence at most `top_n` of
them), and on the counts {(A,x): 10, (A,y): 3, (B,x): 7} with
`top_n = 1` the result keeps one row per category, {(A,x): 10,
(B,x): 7}, not a single global top-1. -/
theorem c6_per_primary_key_truncation
    (df : List Row) (n : Int) (c : String) (hn : 0 ≤ n) :
    ((compute_top_authors_by_category df n).filter fun e => decide (e.1.1 = c)) =
        ((grouped_sorted df).filter fun e => decide (e.1.1 = c)).take n.toNat ∧
    ((compute_top_authors_by_category df n).filter
        fun e => decide (e.1.1 = c)).length ≤ n.toNat ∧
    compute_top_authors_by_category exPerKey 1 =
      [(("A", "x"), 10), (("B", "x"), 7)] := by
  have hmain : ((compute_top_authors_by_category df n).filter
      fun e => decide (e.1.1 = c)) =
      ((grouped_sorted df).filter fun e => decide (e.1.1 = c)).take n.toNat := by
    unfold compute_top_authors_by_category
    split
    · rename_i hdf
      rw [List.isEmpty_iff.mp hdf,
        show grouped_sorted [] = [] from rfl]
      simp
    · exact groupHead_filter n hn (fun e => e.1.1) c (grouped_sorted df)
  refine ⟨hmain, ?_, by decide⟩
  rw [hmain]
  exact le_trans (List.length_take_le _ _) (le_refl _)

/-- Witness for C6 at the concrete frame, category A, `top_n = 1`. -/
theorem c6_witness :
    ((compute_top_authors_by_category exPerKey 1).filter
        fun e => decide (e.1.1 = "A")) =
      ((grouped_sorted exPerKey).filter fun e => decide (e.1.1 = "A")).take
        (1 : Int).toNat :=
  (c6_per_primary_key_truncation exPerKey 1 "A" (by decide)).1

/-- A tweet with id 7 labeled with category A, and the same tweet again
labeled with category B (multi-label join duplication). -/
def rowDupA : Row :=
  { id := some 7, lang := some "en", cop := Cell.num 26,
    categories := some "A", authorUserName := some "u" }

/-- The duplicate of `rowDupA` under category B. -/
def rowDupB : Row :=
  { id := some 7, lang := some "en", cop := Cell.num 26,
    categories := some "B", authorUserName := some "u" }

/-- C7: the `nunique` metric counts each distinct id once per group — the
count attached to every group key is the cardinality of the set of
distinct non-missing ids of that group, the summary KPI is the
cardinality of the set of distinct non-missing ids of the whole frame,
and on the duplicated tweet {id 7, A} / {id 7, B} the per-category counts
are {A: 1, B: 1} with a total of 1. -/
theorem c7_count_distinct_dedups :
    (∀ (df : List Row) (k : String × String) (cnt : Nat),
        (k, cnt) ∈ grouped df →
        cnt = ((keyRows df k).filterMap Row.id).toFinset.card) ∧
    (∀ df : List Row, total_tweets df = (df.filterMap Row.id).toFinset.card) ∧
    grouped [rowDupA, rowDupB] = [(("A", "u"), 1), (("B", "u"), 1)] ∧
    total_tweets [rowDupA, rowDupB] = 1 := by
  have hcol : ∀ l : List Row,
      colNunique (l.map Row.id) = (l.filterMap Row.id).toFinset.card := by
    intro l
    rw [List.card_toFinset]
    unfold colNunique
    rw [List.filterMap_map]
    rfl
  refine ⟨?_, ?_, by decide, by decide⟩
  · intro df k cnt hmem
    unfold grouped at hmem
    rcases List.mem_map.mp hmem with ⟨k2, _, hk2⟩
    have hk : k2 = k := congrArg Prod.fst hk2
    have hcnt : colNunique ((keyRows df k2).map Row.id) = cnt :=
      congrArg Prod.snd hk2
    rw [← hcnt, hk, hcol]
  · intro df
    unfold total_tweets
    split
    · rename_i hdf
      rw [List.isEmpty_iff.mp hdf]
      rfl
    · exact hcol df

/-- Witness for C7 at the duplicated concrete rows and group (A, u). -/
theorem c7_witness :
    (1 : Nat) =
      ((keyRows [rowDupA, rowDupB] ("A", "u")).filterMap Row.id).toFinset.card :=
  c7_count_distinct_dedups.1 [rowDupA, rowDupB] ("A", "u") 1 (by decide)

/-! ### The webdomain views (`src/pages/Most_active_users.py`, `src/app.py`) -/

/-- One row of `combined_weblinks.csv` /
`combined_categorization_most_active_users.csv` restricted to the columns
the webdomain views read. -/
structure WebRow where
  lang : Option String
  cop : Cell
  extracted_domains : Option String
deriving DecidableEq

/-- Python `cell.split(",")` on the character list of a cell: split at
every comma, keeping empty pieces (`"".split(",") == [""]`). -/
def splitComma : List Char → List (List Char)
  | [] => [[]]
  | ch :: rest =>
    if ch = ',' then [] :: splitComma rest
    else
      match splitComma rest with
      | [] => [[ch]]
      | p :: ps => (ch :: p) :: ps

/-- Python `token.strip()`: drop whitespace from both ends. -/
def trimChars (l : List Char) : List Char :=
  ((l.dropWhile Char.isWhitespace).reverse.dropWhile Char.isWhitespace).reverse

/-- `str.split(",")` of one cell followed by `str.strip()` of each
resulting token (`src/pages/Most_active_users.py`). -/
def splitAndTrim (s : String) : List String :=
  (splitComma s.data).map fun p => String.mk (trimChars p)

/-- `filtered_df[extracted_domains].dropna().astype(str).str.split(",")
.explode().str.strip()` (`src/pages/Most_active_users.py`): drop missing
cells, split every cell on commas, one exploded entry per token, trim
each token.  Nothing discards empty tokens. -/
def all_domains (df : List WebRow) : List String :=
  ((df.filterMap WebRow.extracted_domains).map splitAndTrim).flatten

/-- The number of occurrences of token `t` in the exploded domain column,
as reported by its `value_counts()`. -/
def domain_count (df : List WebRow) (t : String) : Nat :=
  (all_domains df).count t

/-- The webdomain table of `main` (`src/app.py`):
`filtered_webdomains[extracted_domains].value_counts()` counts the
non-missing cell strings whole — no splitting at all. -/
def app_domain_count (df : List WebRow) (t : String) : Nat :=
  (df.filterMap WebRow.extracted_domains).count t

/-- A row whose domain cell `a.com,,` yields two empty tokens. -/
def webEmptyTok : WebRow :=
  { lang := some "en", cop := Cell.num 26,
    extracted_domains := some "a.com,," }

/-- The spec's example cell. -/
def webSpec : WebRow :=
  { lang := some "en", cop := Cell.num 26,
    extracted_domains := some "a.com, b.com,a.com" }

/-- A row with a missing domain cell. -/
def webNone : WebRow :=
  { lang := some "en", cop := Cell.num 26, extracted_domains := none }

/-- C8 counterexample: empty tokens are not discarded.  The cell
`a.com,,` splits into `a.com` and two empty tokens, and the empty string
is counted twice — the claim demands count 0 for it. -/
theorem c8_counterexample :
    domain_count [webEmptyTok] "" = 2 ∧ domain_count [webEmptyTok] "" ≠ 0 := by
  constructor
  · decide
  · decide

/-- C8 as amended: the exploded count splits each non-missing cell on the
delimiter, trims whitespace from each token, counts every token
occurrence (duplicates within a cell counted separately), and missing
cells contribute zero occurrences — but empty tokens are kept and counted
as occurrences of the empty string, not discarded.  On the spec's cell
`a.com, b.com,a.com` the counts are a.com ↦ 2, b.com ↦ 1.  The
webdomains table of `src/app.py` does not split at all: it counts each
whole cell string as a single value. -/
theorem c8_amended_empty_tokens_kept :
    (∀ (df : List WebRow) (t : String),
        domain_count df t =
          ((df.filterMap WebRow.extracted_domains).map
            fun s => (splitAndTrim s).count t).sum) ∧
    (∀ (r : WebRow) (df : List WebRow), r.extracted_domains = none →
        all_domains (r :: df) = all_domains df) ∧
    domain_count [webSpec] "a.com" = 2 ∧
    domain_count [webSpec] "b.com" = 1 ∧
    app_domain_count [webSpec] "a.com, b.com,a.com" = 1 ∧
    app_domain_count [webSpec] "a.com" = 0 := by
  refine ⟨?_, ?_, by decide, by decide, by decide, by decide⟩
  · intro df t
    unfold domain_count all_domains
    rw [List.count_flatten, List.map_map]
    rfl
  · intro r df hr
    unfold all_domains
    rw [List.filterMap_cons_none hr]

/-- Witness for the amended C8: a missing cell contributes nothing. -/
theorem c8_amended_witness :
    all_domains (webNone :: [webSpec]) = all_domains [webSpec] :=
  c8_amended_empty_tokens_kept.2.1 webNone [webSpec] rfl

/-! ### The entity-frequency view (`src/pages/Other_stats.py`) -/

/-- One row of `entity_frequencies.csv` restricted to the columns the
entity view reads. -/
structure EntityRow where
  lang : Option String
  cop : Cell
  entity : Option String
  frequency : Nat
deriving DecidableEq

/-- The load performed by each of the four frequency views of
`src/pages/Other_stats.py` (`load_entity_data` and the word / verb /
hashtag branches, which repeat it verbatim on their own CSVs):
`pd.read_csv`, then `df[lang] = df[lang].fillna("unknown")`, then a
value-preserving `astype("category")` cast of `cop`.  Only `lang` is
sentinel-filled; `cop` keeps its values (no numeric coercion here) and
the value and frequency columns are untouched. -/
def other_stats_load (df : List EntityRow) : List EntityRow :=
  df.map fun e => { e with lang := some (e.lang.getD "unknown") }

/-- Does `t` match the regex `\s*\([^)]+\)$`: optional whitespace, then a
parenthesized non-empty run of non-`)` characters reaching the end? -/
def parenTail (t : List Char) : Bool :=
  match t.dropWhile Char.isWhitespace with
  | '(' :: rest =>
    match rest.reverse with
    | ')' :: inner => !inner.isEmpty && inner.all fun ch => ch ≠ ')'
    | _ => false
  | _ => false

/-- The prefix preceding the leftmost suffix matching the regex, if any
suffix matches. -/
def stripParenAux : List Char → Option (List Char)
  | [] => none
  | ch :: rest =>
    if parenTail (ch :: rest) then some []
    else (stripParenAux rest).map fun p => ch :: p

/-- `entity.str.replace(regex of a trailing parenthesized tag, "")`
(`src/pages/Other_stats.py`): `re.sub` deletes the leftmost match of
`\s*\([^)]+\)$`, stripping one trailing parenthesized annotation together
with the whitespace before it; a string without such a tail is kept
unchanged. -/
def stripTrailingParen (s : String) : String :=
  match stripParenAux s.data with
  | some p => String.mk p
  | none => s

/-- The distinct stripped entity labels (pandas `groupby` drops rows with
a missing entity, and `str.replace` keeps a missing entity missing). -/
def entityLabels (df : List EntityRow) : List String :=
  ((df.filterMap EntityRow.entity).map stripTrailingParen).dedup

/-- `filtered_df.groupby(entity_label, as_index := False)[frequency].sum()`
(`src/pages/Other_stats.py`): one row per distinct stripped label, labels
ascending, summing the frequencies of the rows whose stripped entity
equals the label. -/
def entity_totals (df : List EntityRow) : List (String × Nat) :=
  (List.insertionSort strLe (entityLabels df)).map fun lab =>
    (lab,
      ((df.filter fun r =>
          decide (r.entity.map stripTrailingParen = some lab)).map
        EntityRow.frequency).sum)

/-- The entity `boris johnson (PER)` with frequency 2. -/
def entPer : EntityRow :=
  { lang := some "en", cop := Cell.num 26,
    entity := some "boris johnson (PER)", frequency := 2 }

/-- The entity `boris johnson (ORG)` with frequency 3. -/
def entOrg : EntityRow :=
  { lang := some "en", cop := Cell.num 26,
    entity := some "boris johnson (ORG)", frequency := 3 }

/-- C10: the trailing parenthesized type annotation is stripped before
grouping — `boris johnson (PER)` becomes `boris johnson` — every group's
frequency is the summed frequency of all rows whose stripped entity is
the group's label, and entities differing only in their parenthesized tag
merge: {`boris johnson (PER)` ↦ 2, `boris johnson (ORG)` ↦ 3} groups to
{`boris johnson` ↦ 5}. -/
theorem c10_entity_type_tag_stripped :
    stripTrailingParen "boris johnson (PER)" = "boris johnson" ∧
    (∀ (df : List EntityRow) (p : String × Nat), p ∈ entity_totals df →
        p.2 = ((df.filter fun r =>
            decide (r.entity.map stripTrailingParen = some p.1)).map
          EntityRow.frequency).sum) ∧
    entity_totals [entPer, entOrg] = [("boris johnson", 5)] := by
  refine ⟨by decide, ?_, by decide⟩
  intro df p hp
  unfold entity_totals at hp
  rcases List.mem_map.mp hp with ⟨lab, _, hlab⟩
  rw [← hlab]

/-- Witness for C10 at the concrete merged rows. -/
theorem c10_witness :
    (("boris johnson", 5) : String × Nat).2 =
      (([entPer, entOrg].filter fun r =>
          decide (r.entity.map stripTrailingParen =
            some ("boris johnson", 5).1)).map
        EntityRow.frequency).sum :=
  c10_entity_type_tag_stripped.2.1 [entPer, entOrg] ("boris johnson", 5)
    (by decide)

/-- An `Other_stats.py` frequency row with a missing language. -/
def entNoLang : EntityRow :=
  { lang := none, cop := Cell.num 26,
    entity := some "x (PER)", frequency := 1 }

/-- The image of `entNoLang` under the `Other_stats.py` load. -/
def entNoLangLoaded : EntityRow :=
  { lang := some "unknown", cop := Cell.num 26,
    entity := some "x (PER)", frequency := 1 }

/-- C4 as amended: sentinel replacement happens only in some loads and
some columns.  `load_data` (`src/app.py`, copied in `Actors.py`) fills
missing `categories`, `author.userName` and `lang`, and each of the four
`Other_stats.py` loads fills missing `lang` with `unknown`; after those
loads the filled columns are never missing.  The `cop` dimension column
is nowhere given a sentinel (`load_data` coerces it to numeric leaving
missing and unparseable cells missing), and the `Categories.py` /
`Most_active_users.py` loads replace nothing at all, so missing dimension
values can survive loading and a constrained filter silently drops such
unlabeled rows. -/
theorem c4_amended_partial_sentinel_fill :
    (∀ (raw : List Row) (r : Row), r ∈ load_data raw →
        r.lang ≠ none ∧ r.categories ≠ none ∧ r.authorUserName ≠ none) ∧
    (∀ (raw : List EntityRow) (e : EntityRow), e ∈ other_stats_load raw →
        e.lang ≠ none) ∧
    (∀ raw : List Row, categories_page_load raw = raw) := by
  refine ⟨?_, ?_, fun _ => rfl⟩
  · intro raw r hr
    unfold load_data at hr
    rcases List.mem_map.mp hr with ⟨s, _, hs⟩
    refine ⟨?_, ?_, ?_⟩ <;> rw [← hs] <;> simp
  · intro raw e he
    unfold other_stats_load at he
    rcases List.mem_map.mp he with ⟨s, _, hs⟩
    rw [← hs]
    simp

/-- Witness for the amended C4 at concrete loaded rows of both sentinel
filling loaders. -/
theorem c4_amended_witness :
    (rowBadCopLoaded.lang ≠ none ∧ rowBadCopLoaded.categories ≠ none ∧
        rowBadCopLoaded.authorUserName ≠ none) ∧
    entNoLangLoaded.lang ≠ none :=
  ⟨c4_amended_partial_sentinel_fill.1 [rowBadCop] rowBadCopLoaded (by decide),
    c4_amended_partial_sentinel_fill.2.1 [entNoLang] entNoLangLoaded (by decide)⟩

end UnknownPath
